import Mathlib

/-!
A shallow embedding of the chess3d synchronization layer (the single source
file of the repository): the Board Registry (`boardState`, a JS object from
piece-identity strings to square strings, embedded as an association list in
insertion order), the scene graph pieces relevant to the game logic
(`scene.children[0].children`, embedded as a list of objects with name,
visibility, frustum-culling flag and position), the Move Executor
(`moveSelectedPiece`, `onBotMessage` and their helpers), the Promotion
Coordinator (`deferredPromise` / `onPromote`) and the verdict surface.

External collaborators are embedded at their interface exactly as the code
consumes them: `game.move` is a parameter of type `Option MoveRec` (`none`
embeds a thrown exception), `game.isCheckmate()` / `game.isDraw()` are boolean
parameters evaluated after the move, the promotion modal's answer is a string
parameter, and the DOM nodes of the verdict surface are assumed present (their
absence is a silent no-op guard in the code and is not exercised by any claim).
Material/emissive changes (illumination) have no game-state effect and are not
modelled.  JS semantics embedded explicitly: object key update keeps insertion
position while a new key is appended; `delete` removes the key; `find` over
`Object.entries` takes the first match in insertion order; template strings
render numbers in decimal; `String.prototype.includes` is substring search.
-/

namespace Chess3d

/-- JS `pat` is-prefix-of `l` on character lists (`String.prototype.includes`
support). -/
def prefixB : List Char → List Char → Bool
  | [], _ => true
  | _ :: _, [] => false
  | a :: as, b :: bs => a == b && prefixB as bs

/-- JS substring test on character lists. -/
def infixB (pat : List Char) : List Char → Bool
  | [] => prefixB pat []
  | b :: bs => prefixB pat (b :: bs) || infixB pat bs

/-- Embedding of JS `s.includes(pat)`. -/
def strIncludes (s pat : String) : Bool :=
  infixB pat.toList s.toList

/-- A decimal digit character (only used for arguments below 10). -/
def digitChar (n : Nat) : Char :=
  match n with
  | 0 => '0' | 1 => '1' | 2 => '2' | 3 => '3' | 4 => '4'
  | 5 => '5' | 6 => '6' | 7 => '7' | 8 => '8' | _ => '9'

/-- Decimal rendering of a natural number as a digit list, structurally
recursive on a fuel bound that strictly exceeds the recursion depth (JS
template-string rendering of a nonnegative integer). -/
def natReprAux : Nat → Nat → List Char
  | 0, _ => []
  | fuel + 1, n =>
      if n < 10 then [digitChar n]
      else natReprAux fuel (n / 10) ++ [digitChar (n % 10)]

/-- Decimal rendering of a natural number as a string, as a JS template
string renders `originalPieces.length + 1`. -/
def natRepr (n : Nat) : String :=
  ⟨natReprAux (n + 1) n⟩

/-- The Board Registry: `boardState`, a JS object mapping a piece identity to
a square, kept in insertion order. -/
abbrev BoardState := List (String × String)

/-- Source `getPiecePosition`: the first entry whose key is `pieceName`. -/
def getPiecePosition (bs : BoardState) (pieceName : String) : Option String :=
  match bs.find? (fun e => e.1 == pieceName) with
  | some e => some e.2
  | none => none

/-- Source `getPieceAt`: the first entry whose value is `position`. -/
def getPieceAt (bs : BoardState) (position : String) : Option String :=
  match bs.find? (fun e => e.2 == position) with
  | some e => some e.1
  | none => none

/-- JS `delete boardState[k]`. -/
def bsDelete (bs : BoardState) (k : String) : BoardState :=
  bs.filter (fun e => !(e.1 == k))

/-- JS `boardState[k] = v`: updating an existing key keeps its insertion
position, a new key is appended. -/
def bsSet (bs : BoardState) (k v : String) : BoardState :=
  if bs.any (fun e => e.1 == k) then
    bs.map (fun e => if e.1 == k then (k, v) else e)
  else bs ++ [(k, v)]

/-- A renderable of `scene.children[0].children`: the fields the game logic
reads or writes. -/
structure Obj where
  name : String
  visible : Bool
  frustumCulled : Bool
  x : Rat
  y : Rat
  z : Rat
deriving DecidableEq

/-- The fixed vertical offset added when a piece is placed on a square. -/
def yOffset : Rat := 0.01475

/-- Source `getSceneObject` (an `undefined` name matches no object). -/
def getSceneObject (scene : List Obj) (objectName : Option String) : Option Obj :=
  match objectName with
  | none => none
  | some nm => scene.find? (fun o => o.name == nm)

/-- Source `removePieceFromBoard`: hide the renderable and drop it from
frustum culling (mutation of the looked-up object, embedded as a by-name
update of the scene). -/
def removePieceFromBoard (scene : List Obj) (pieceObject : Option Obj) : List Obj :=
  match pieceObject with
  | none => scene
  | some po =>
      scene.map (fun o =>
        if o.name == po.name then { o with visible := false, frustumCulled := false } else o)

/-- The mutable world the Move Executor updates: the Board Registry plus the
scene children. -/
structure World where
  boardState : BoardState
  scene : List Obj
deriving DecidableEq

/-- The `Move` record returned by `game.move` (the fields the code reads). -/
structure MoveRec where
  fromSq : String
  toSq : String
  san : String
  flags : String
  promotion : Option String
deriving DecidableEq

/-- Source `isKingSideCastling`: `san === "O-O"`. -/
def isKingSideCastling (move : MoveRec) : Bool :=
  move.san == "O-O"

/-- Source `isQueenSideCastling`: `san === "O-O-O"`. -/
def isQueenSideCastling (move : MoveRec) : Bool :=
  move.san == "O-O-O"

/-- Source `isCastlingMove`. -/
def isCastlingMove (move : MoveRec) : Bool :=
  isKingSideCastling move || isQueenSideCastling move

/-- Source `isEnPassantMove`: `move.flags === "e"`. -/
def isEnPassantMove (move : MoveRec) : Bool :=
  move.flags == "e"

/-- Source `isPromotionMove`: `!!move.promotion`. -/
def isPromotionMove (move : MoveRec) : Bool :=
  move.promotion.isSome

/-- Source `shouldPromote`: the picked identity contains `"pawn"` and the
second character of the destination is `"8"` or `"1"` (an out-of-range index
is JS `undefined`, embedded as `none`, which compares unequal). -/
def shouldPromote (piece : String) (toP : String) : Bool :=
  let rank := (toP.toList.drop 1).head?
  let isPawn := strIncludes piece "pawn"
  isPawn && (rank == some '8' || rank == some '1')

/-- The file letters used by the castling helpers. -/
def filesList : List Char := ['a', 'b', 'c', 'd', 'e', 'f', 'g', 'h']

/-- Source `getPreviousFileSameRankPosition`.  JS corner cases embedded
exactly: an `undefined` position yields `"a1"`, a file not in the list yields
`"a1"`, and an out-of-range list access is `undefined`, which a template
string renders as the text `"undefined"`. -/
def getPreviousFileSameRankPosition (position : Option String) : String :=
  match position with
  | none => "a1"
  | some p =>
      match p.toList with
      | [] => "a1"
      | f :: rest =>
          let rankStr := match rest.head? with
            | some r => String.singleton r
            | none => "undefined"
          match filesList.findIdx? (fun c => c == f) with
          | none => "a1"
          | some idx =>
              let fileStr := if idx = 0 then "undefined"
                else match filesList.get? (idx - 1) with
                  | some c => String.singleton c
                  | none => "undefined"
              fileStr ++ rankStr

/-- Source `getNextFileSameRankPosition` (mirror of the previous helper). -/
def getNextFileSameRankPosition (position : Option String) : String :=
  match position with
  | none => "a1"
  | some p =>
      match p.toList with
      | [] => "a1"
      | f :: rest =>
          let rankStr := match rest.head? with
            | some r => String.singleton r
            | none => "undefined"
          match filesList.findIdx? (fun c => c == f) with
          | none => "a1"
          | some idx =>
              let fileStr := match filesList.get? (idx + 1) with
                | some c => String.singleton c
                | none => "undefined"
              fileStr ++ rankStr

/-- Source `movePieceOnBoard`: hide and delete a captured occupant of `toP`,
then re-map the mover and snap its renderable onto the destination square's
anchor plus the vertical offset.  The early returns of the source (no piece at
`fromP`; no scene object named `toP`) are embedded as returning the world
reached so far. -/
def movePieceOnBoard (w : World) (fromP toP : String) : World :=
  match getPieceAt w.boardState fromP with
  | none => w
  | some fromPiece =>
      let w1 : World :=
        match getPieceAt w.boardState toP with
        | some toPiece =>
            { boardState := bsDelete w.boardState toPiece,
              scene := removePieceFromBoard w.scene (getSceneObject w.scene (some toPiece)) }
        | none => w
      match getSceneObject w1.scene (some toP) with
      | none => w1
      | some positionObject =>
          { boardState := bsSet w1.boardState fromPiece toP,
            scene := w1.scene.map (fun o =>
              if o.name == fromPiece then
                { o with x := positionObject.x, y := positionObject.y + yOffset,
                         z := positionObject.z }
              else o) }

/-- Source `castleRook`: the rook identity is derived from the turn flag and a
fixed naming convention, and relocated next to the king's destination file.
The source's two sequential `if`s are kept (their conditions are mutually
exclusive on any record since `san` cannot be both strings). -/
def castleRook (w : World) (isPlayerTurn : Bool) (move : MoveRec) (toP : String) : World :=
  let pieceColour := if isPlayerTurn then "white" else "black"
  let w1 :=
    if isKingSideCastling move then
      match getPiecePosition w.boardState ("rook_" ++ pieceColour ++ "_1") with
      | none => w
      | some kingSideRookPosition =>
          movePieceOnBoard w kingSideRookPosition (getPreviousFileSameRankPosition (some toP))
    else w
  if isQueenSideCastling move then
    match getPiecePosition w1.boardState ("rook_" ++ pieceColour ++ "_2") with
    | none => w1
    | some queenSideRookPosition =>
        movePieceOnBoard w1 queenSideRookPosition (getNextFileSameRankPosition (some toP))
  else w1

/-- Source `captureEnPassantPawn`: remove the identity at the previous move's
destination square from the registry and hide its renderable. -/
def captureEnPassantPawn (w : World) (previousMove : Option MoveRec) : World :=
  match previousMove with
  | none => w
  | some pm =>
      let capturedPiece := getPieceAt w.boardState pm.toSq
      let capturedPieceObject := getSceneObject w.scene capturedPiece
      let bs1 := match capturedPiece with
        | some c => bsDelete w.boardState c
        | none => w.boardState
      { boardState := bs1,
        scene := removePieceFromBoard w.scene capturedPieceObject }

/-- Source `getPromotionPieceMoveCharacter`: default-parameter `"queen"` and a
`?? "q"` fallback over the four-entry map. -/
def getPromotionPieceMoveCharacter (promotionPiece : Option String) : String :=
  let p := promotionPiece.getD "queen"
  let looked := List.lookup p
    [("queen", "q"), ("knight", "n"), ("bishop", "b"), ("rook", "r")]
  looked.getD "q"

/-- Source `getPromotionPieceObject`: filter the scene children whose name
contains `<type>_white`, clone the last of them and name the clone
`<type>_white_<count+1>`.  An empty filter would be a JS crash
(`undefined.clone()`); it is embedded as `none`, which the caller's
`if (!pieceObject) return` guard absorbs. -/
def getPromotionPieceObject (scene : List Obj) (promotionPiece : String) : Option Obj :=
  let originalPieces := scene.filter (fun o => strIncludes o.name (promotionPiece ++ "_white"))
  match originalPieces.getLast? with
  | none => none
  | some latestBuiltPiece =>
      some { latestBuiltPiece with
               name := promotionPiece ++ "_white_" ++ natRepr (originalPieces.length + 1) }

/-- Source `addPieceAt`: register the new identity at `to`, and if the square
anchor exists, place the shown renderable at it (the new object is appended to
the scene children). -/
def addPieceAt (w : World) (pieceObject : Option Obj) (toP : String) : World :=
  match pieceObject with
  | none => w
  | some po =>
      let bs1 := bsSet w.boardState po.name toP
      match getSceneObject w.scene (some toP) with
      | none => { w with boardState := bs1 }
      | some positionObject =>
          { boardState := bs1,
            scene := w.scene ++
              [{ po with visible := true, frustumCulled := true,
                         x := positionObject.x, y := positionObject.y + yOffset,
                         z := positionObject.z }] }

/-- Source `removePawn`: drop the selected identity from the registry and hide
its renderable. -/
def removePawn (w : World) (selectedPiece : Option String) : World :=
  match selectedPiece with
  | none => w
  | some sp =>
      { boardState := bsDelete w.boardState sp,
        scene := removePieceFromBoard w.scene (getSceneObject w.scene (some sp)) }

/-- Source `addPromotedPiece`. -/
def addPromotedPiece (w : World) (promotionPiece : String) (toP : String) : World :=
  addPieceAt w (getPromotionPieceObject w.scene promotionPiece) toP

/-- Source `removePawnAndAddPromotedPiece` (human promotion path). -/
def removePawnAndAddPromotedPiece (w : World) (selectedPiece : Option String)
    (promotionPiece : Option String) (toP : String) : World :=
  match promotionPiece, selectedPiece with
  | some pp, some _ =>
      let w1 := removePawn w selectedPiece
      addPromotedPiece w1 pp toP
  | _, _ => w

/-- The `piece` local of source `getPieceCharacterToPiece`: the raw letter
mapped through `pieceCharacterToPieceMap` with the `?? queen_<colour>`
fallback. -/
def pieceCharacterBase (isPlayerTurn : Bool) (pieceCharacter : String) : String :=
  let colour := if isPlayerTurn then "white" else "black"
  (List.lookup pieceCharacter
    [("q", "queen_" ++ colour), ("n", "knight_" ++ colour),
     ("b", "bishop_" ++ colour), ("r", "rook_" ++ colour)]).getD ("queen_" ++ colour)

/-- Source `getPieceCharacterToPiece` (opponent promotion path): map the raw
letter to a piece base name with default `queen_<colour>`, then clone the last
matching scene child under a freshly numbered name.  An empty filter would be
a JS crash, embedded as `none`. -/
def getPieceCharacterToPiece (scene : List Obj) (isPlayerTurn : Bool)
    (pieceCharacter : String) : Option Obj :=
  let piece := pieceCharacterBase isPlayerTurn pieceCharacter
  let originalPieces := scene.filter (fun o => strIncludes o.name piece)
  match originalPieces.getLast? with
  | none => none
  | some latestBuiltPiece =>
      some { latestBuiltPiece with
               name := piece ++ "_" ++ natRepr (originalPieces.length + 1) }

/-- Source `removePawnPieceAndAddPromotedPiece`. -/
def removePawnPieceAndAddPromotedPiece (w : World) (promotionPiece : Option Obj)
    (toP : String) (pawnPiece : Option Obj) : World :=
  match promotionPiece, pawnPiece with
  | some po, some pw =>
      let w1 : World :=
        { boardState := bsDelete w.boardState pw.name,
          scene := removePieceFromBoard w.scene (some pw) }
      addPieceAt w1 (some po) toP
  | _, _ => w

/-- Source `promotePiece` (opponent promotion path). -/
def promotePiece (w : World) (isPlayerTurn : Bool) (promotionPiece : String)
    (fromP toP : String) : World :=
  let promotionPieceObject := getPieceCharacterToPiece w.scene isPlayerTurn promotionPiece
  let piece := getPieceAt w.boardState fromP
  let pieceObject := getSceneObject w.scene piece
  removePawnPieceAndAddPromotedPiece w promotionPieceObject toP pieceObject

/-- JS `message.split(" ")` on character lists (single-space separator,
empty fields preserved). -/
def splitOnSpace : List Char → List (List Char)
  | [] => [[]]
  | c :: rest =>
      match splitOnSpace rest with
      | [] => if c == ' ' then [[], []] else [[c]]
      | w :: ws => if c == ' ' then [] :: w :: ws else (c :: w) :: ws

/-- JS `s.slice(a, b)` for string slices with nonnegative in-order bounds. -/
def jsSlice (s : String) (a b : Nat) : String :=
  ⟨(s.toList.drop a).take (b - a)⟩

/-- Source `getBestMoveDetails`: second space-separated token, sliced into
origin, destination and the optional fifth character. -/
def getBestMoveDetails (bestMoveMessage : String) : String × String × String :=
  let bestMove : String :=
    ⟨((splitOnSpace bestMoveMessage.toList).drop 1).headD []⟩
  (jsSlice bestMove 0 2, jsSlice bestMove 2 4, jsSlice bestMove 4 5)

/-- The module-scope game state outside the `World`: the turn flag, the
selection, the previous-move record, and the verdict surface (DOM text and
display flag). -/
structure GameState where
  world : World
  isPlayerTurn : Bool
  selectedPiece : Option String
  validMoves : List MoveRec
  previousMove : Option MoveRec
  verdictText : Option String
  verdictShown : Bool
deriving DecidableEq

/-- Observable interactions of one executor run with the outside: the
promotion modal being opened to request a choice, a move submission to the
rules engine (with the promotion character actually submitted), and a search
request to the engine worker (`makeBotMove`). -/
inductive Ev where
  | promptPromotion
  | submitMove (fromSq toSq promoChar : String)
  | searchGo
deriving DecidableEq

/-- Result of one executor run: the final state, the interaction trace, and
whether an exception escaped (JS `throw`). -/
structure MoveOutcome where
  state : GameState
  events : List Ev
  threw : Bool
deriving DecidableEq

/-- Source `showDrawVerdict` (DOM nodes assumed present). -/
def showDrawVerdict (st : GameState) : GameState :=
  { st with verdictText := some "Draw!", verdictShown := true }

/-- Source `showCheckmateVerdict`: the winner is whichever side the (already
flipped) turn flag does not name. -/
def showCheckmateVerdict (st : GameState) : GameState :=
  let didPlayerWin := !st.isPlayerTurn
  { st with
      verdictText := some ("Checkmate! (" ++ (if didPlayerWin then "Player" else "Computer")
        ++ " wins)"),
      verdictShown := true }

/-- Source `showGameVerdict`, with the engine's post-move termination answers
passed in. -/
def showGameVerdict (st : GameState) (isCheckmate isDraw : Bool) : GameState :=
  let st1 := if isCheckmate then showCheckmateVerdict st else st
  if isDraw then showDrawVerdict st1 else st1

/-- Source `showVerdictIfNecessary` (`isGameOver` inlined as the disjunction
of the engine answers). -/
def showVerdictIfNecessary (st : GameState) (isCheckmate isDraw : Bool) : GameState :=
  if isCheckmate || isDraw then showGameVerdict st isCheckmate isDraw else st

/-- Source `unsetSelectedPiece` (the deillumination has no game-state
effect). -/
def unsetSelectedPiece (st : GameState) : GameState :=
  match st.selectedPiece with
  | none => st
  | some _ => { st with selectedPiece := none }

/-- Source `unsetValidMoves`. -/
def unsetValidMoves (st : GameState) : GameState :=
  { st with validMoves := [] }

/-- Source `unsetSelectedPieceAndValidMoves`. -/
def unsetSelectedPieceAndValidMoves (st : GameState) : GameState :=
  unsetValidMoves (unsetSelectedPiece st)

/-- Source `moveSelectedPiece` (the human move executor).  `choice` is the
piece type the promotion modal would deliver, `gameMoveResult` the record
`game.move` returns for this submission (`none` embeds the throw on an
illegal move), and `isCheckmate` / `isDraw` the engine's termination answers
after the move.  The `finally` block (clearing selection and valid moves)
runs on both the success and the throw path; the two early returns before the
`try` run it on neither. -/
def moveSelectedPiece (st : GameState) (toP : String) (choice : String)
    (gameMoveResult : Option MoveRec) (isCheckmate isDraw : Bool) : MoveOutcome :=
  match st.selectedPiece with
  | none => ⟨st, [], false⟩
  | some selectedPiece =>
      match getPiecePosition st.world.boardState selectedPiece with
      | none => ⟨st, [], false⟩
      | some fromP =>
          let prompted := shouldPromote selectedPiece toP
          let promotionPiece : Option String := if prompted then some choice else none
          let events := (if prompted then [Ev.promptPromotion] else []) ++
            [Ev.submitMove fromP toP (getPromotionPieceMoveCharacter promotionPiece)]
          match gameMoveResult with
          | none => ⟨unsetSelectedPieceAndValidMoves st, events, true⟩
          | some move =>
              let w1 := if isCastlingMove move then castleRook st.world st.isPlayerTurn move toP
                else st.world
              let w2 := if isEnPassantMove move then captureEnPassantPawn w1 st.previousMove
                else w1
              let w3 := if isPromotionMove move then
                  removePawnAndAddPromotedPiece w2 st.selectedPiece promotionPiece toP
                else w2
              let w4 := movePieceOnBoard w3 fromP toP
              let st1 := { st with world := w4, previousMove := some move,
                                   isPlayerTurn := false }
              let st2 := showVerdictIfNecessary st1 isCheckmate isDraw
              ⟨unsetSelectedPieceAndValidMoves st2, events, false⟩

/-- Source `moveSelectedPieceAndTriggerBotMove`: request the opponent's reply
only when the human move did not throw; the catch swallows the exception. -/
def moveSelectedPieceAndTriggerBotMove (st : GameState) (toP : String) (choice : String)
    (gameMoveResult : Option MoveRec) (isCheckmate isDraw : Bool) : MoveOutcome :=
  let o := moveSelectedPiece st toP choice gameMoveResult isCheckmate isDraw
  if o.threw then ⟨o.state, o.events, false⟩
  else ⟨o.state, o.events ++ [Ev.searchGo], false⟩

/-- Source `onBotMessage` (the opponent move executor).  A message without the
`bestmove` marker is ignored.  The promotion character submitted to
`game.move` is the raw fifth character of the move code; `onBotMessage` has no
try/catch, so a rejected submission escapes as an uncaught exception with no
state mutation. -/
def onBotMessage (st : GameState) (message : String)
    (gameMoveResult : Option MoveRec) (isCheckmate isDraw : Bool) : MoveOutcome :=
  if !(strIncludes message "bestmove") then ⟨st, [], false⟩
  else
    let d := getBestMoveDetails message
    let fromP := d.1
    let toP := d.2.1
    let promotion := d.2.2
    let events := [Ev.submitMove fromP toP promotion]
    match gameMoveResult with
    | none => ⟨st, events, true⟩
    | some move =>
        let w1 := if isCastlingMove move then castleRook st.world st.isPlayerTurn move toP
          else st.world
        let w2 := if isEnPassantMove move then captureEnPassantPawn w1 st.previousMove
          else w1
        let w3 := if promotion == "" then w2
          else promotePiece w2 st.isPlayerTurn promotion fromP toP
        let w4 := movePieceOnBoard w3 fromP toP
        let st1 := { st with world := w4, previousMove := some move, isPlayerTurn := true }
        ⟨showVerdictIfNecessary st1 isCheckmate isDraw, events, false⟩

/-- State of the Promotion Coordinator's single-slot deferred: whether
`deferredResolve` is installed, and the list of values with which the waiting
promise has actually been resolved. -/
structure PromoState where
  pending : Bool
  resolved : List (Option String)
deriving DecidableEq

/-- Source `deferredPromise`: installs a resolver into the single slot. -/
def deferredPromiseStep (s : PromoState) : PromoState :=
  { s with pending := true }

/-- Source `onPromote`: a no-op unless a form target exists and a resolver is
installed; otherwise the installed resolver resolves the promise with the
form value and clears itself (`deferredResolve = undefined`) in the same
invocation. -/
def onPromoteStep (s : PromoState) (targetPresent : Bool) (formValue : Option String) :
    PromoState :=
  if !targetPresent || !s.pending then s
  else { pending := false, resolved := s.resolved ++ [formValue] }

/-- Modelled from the spec (the Rules Engine is an external black box whose
move records carry "classification flags ... derived from the Rules Engine's
move description"): a record is a castle exactly when its flags carry the
kingside or queenside castle letter (chess.js `k` / `q`). -/
def recordIsCastle (move : MoveRec) : Bool :=
  move.flags.toList.contains 'k' || move.flags.toList.contains 'q'

/-- Follows the spec's words, for comparison with the source's
`shouldPromote`: a promotion choice is requested exactly for a pawn whose
destination rank is the farthest rank for its color (rank 8 for white, rank 1
for black). -/
def specShouldPromote (piece : String) (toP : String) : Bool :=
  let rank := (toP.toList.drop 1).head?
  strIncludes piece "pawn" &&
    ((strIncludes piece "white" && rank == some '8') ||
     (strIncludes piece "black" && rank == some '1'))

/-- The amended promotion-eligibility condition: a pawn identity moving to
rank 8 or rank 1, regardless of the pawn's color. -/
def amendedShouldPromote (piece : String) (toP : String) : Bool :=
  strIncludes piece "pawn" &&
    (((toP.toList.drop 1).head? == some '8') || ((toP.toList.drop 1).head? == some '1'))

/-- A visible scene child (positions are irrelevant to the claims and set to
the board origin). -/
def mkObj (nm : String) : Obj :=
  ⟨nm, true, true, 0, 0, 0⟩

/-- A game state with empty verdict surface and no previous move, white to
move, built from a registry, a scene and a selection. -/
def mkState (bs : BoardState) (scene : List Obj) (sel : Option String) : GameState :=
  { world := { boardState := bs, scene := scene },
    isPlayerTurn := true, selectedPiece := sel, validMoves := [],
    previousMove := none, verdictText := none, verdictShown := false }

/-- Position for white queenside castling that gives check: white king e1 and
rook a1, black king d8 (after O-O-O the rook on d1 checks the d8 king, so the
engine's record is `O-O-O+`). -/
def c1State : GameState :=
  mkState
    [("king_white", "e1"), ("rook_white_2", "a1"), ("king_black", "d8")]
    [mkObj "a1", mkObj "b1", mkObj "c1", mkObj "d1", mkObj "e1", mkObj "d8",
     mkObj "king_white", mkObj "rook_white_2", mkObj "king_black"]
    (some "king_white")

/-- The record chess.js returns for that check-giving queenside castle: san
carries the check suffix, flags carry the queenside-castle letter. -/
def c1Record : MoveRec :=
  ⟨"e1", "c1", "O-O-O+", "q", none⟩

/-- Modelled from the spec ("with the a1 rook present (queenside), relocates
the rook to d1 and the king to c1"): the Rules Engine's own board after white
queenside castling from `c1State`. -/
def c1EngineBoardAfter : BoardState :=
  [("king_white", "c1"), ("rook_white_2", "d1"), ("king_black", "d8")]

/-- The Board Registry after the executor finishes the `c1State` castle. -/
def c1FinalBS : BoardState :=
  (moveSelectedPiece c1State "c1" "queen" (some c1Record) false false).state.world.boardState

/-- Position for white kingside castling that gives check: white king e1 and
rook h1, black king f8 (after O-O the rook on f1 checks the f8 king, so the
engine's record is `O-O+`). -/
def c3State : GameState :=
  mkState
    [("king_white", "e1"), ("rook_white_1", "h1"), ("king_black", "f8")]
    [mkObj "e1", mkObj "f1", mkObj "g1", mkObj "h1", mkObj "f8",
     mkObj "king_white", mkObj "rook_white_1", mkObj "king_black"]
    (some "king_white")

/-- The record chess.js returns for that check-giving kingside castle. -/
def c3Record : MoveRec :=
  ⟨"e1", "g1", "O-O+", "k", none⟩

/-- The Board Registry after the executor finishes the `c3State` castle. -/
def c3FinalBS : BoardState :=
  (moveSelectedPiece c3State "g1" "queen" (some c3Record) false false).state.world.boardState

/-- Position for a capture-promotion: the white pawn on g7 captures the black
rook on h8 and promotes; the scene holds a white queen template to clone. -/
def c2State : GameState :=
  mkState
    [("pawn_white_7", "g7"), ("rook_black_1", "h8"), ("king_white", "e1"),
     ("king_black", "e8")]
    [mkObj "g7", mkObj "h8", mkObj "e1", mkObj "e8",
     mkObj "pawn_white_7", mkObj "rook_black_1", mkObj "king_white", mkObj "king_black",
     mkObj "queen_white_1"]
    (some "pawn_white_7")

/-- The record chess.js returns for the g7xh8 queen promotion (flags carry
capture and promotion). -/
def c2Record : MoveRec :=
  ⟨"g7", "h8", "gxh8=Q", "cp", some "q"⟩

/-- The Board Registry after the executor finishes the `c2State`
capture-promotion. -/
def c2FinalBS : BoardState :=
  (moveSelectedPiece c2State "h8" "queen" (some c2Record) false false).state.world.boardState

/-- A simple state with a selected white pawn on d2, used to exercise the
promotion prompt on a rank-1 destination. -/
def c7State : GameState :=
  mkState
    [("pawn_white_1", "d2"), ("king_white", "e1"), ("king_black", "e8")]
    [mkObj "d1", mkObj "d2", mkObj "e1", mkObj "e8",
     mkObj "pawn_white_1", mkObj "king_white", mkObj "king_black"]
    (some "pawn_white_1")

/-- A state on the opponent's turn with a black pawn on e2 about to promote,
used to exercise the opponent path's raw promotion letter. -/
def c8State : GameState :=
  { world := { boardState := [("pawn_black_5", "e2"), ("king_black", "e8"),
                              ("king_white", "g5")],
               scene := [mkObj "e1", mkObj "e2", mkObj "e8", mkObj "g5",
                         mkObj "pawn_black_5", mkObj "king_black", mkObj "king_white",
                         mkObj "queen_black_1"] },
    isPlayerTurn := false, selectedPiece := none, validMoves := [],
    previousMove := none, verdictText := none, verdictShown := false }

/-- En passant scenario for the witness: white pawn e5, black pawn d5 that
just arrived by the double push d7-d5. -/
def c4State : GameState :=
  { world := { boardState := [("pawn_white_5", "e5"), ("pawn_black_4", "d5"),
                              ("king_white", "e1"), ("king_black", "e8")],
               scene := [mkObj "d5", mkObj "d6", mkObj "e5", mkObj "e1", mkObj "e8",
                         mkObj "pawn_white_5", mkObj "pawn_black_4", mkObj "king_white",
                         mkObj "king_black"] },
    isPlayerTurn := true, selectedPiece := some "pawn_white_5", validMoves := [],
    previousMove := some ⟨"d7", "d5", "d5", "b", none⟩,
    verdictText := none, verdictShown := false }

/-- The record chess.js returns for the e5xd6 en passant capture. -/
def c4Record : MoveRec :=
  ⟨"e5", "d6", "exd6", "e", none⟩

/-- Promotion scenario for the witness: white pawn a7 promotes on a8 to a
knight; the scene holds the two original white knights as templates. -/
def c5State : GameState :=
  mkState
    [("pawn_white_1", "a7"), ("king_white", "e1"), ("king_black", "e8")]
    [mkObj "a7", mkObj "a8", mkObj "e1", mkObj "e8",
     mkObj "pawn_white_1", mkObj "king_white", mkObj "king_black",
     mkObj "knight_white_1", mkObj "knight_white_2"]
    (some "pawn_white_1")

/-- The record chess.js returns for the a8 knight promotion. -/
def c5Record : MoveRec :=
  ⟨"a7", "a8", "a8=N", "np", some "n"⟩

/-- A state with a selected white knight, used to exercise an engine-rejected
submission. -/
def c6State : GameState :=
  mkState
    [("knight_white_1", "g1"), ("king_white", "e1"), ("king_black", "e8")]
    [mkObj "g1", mkObj "g5", mkObj "e1", mkObj "e8",
     mkObj "knight_white_1", mkObj "king_white", mkObj "king_black"]
    (some "knight_white_1")

/-- Mate-delivering human move for the witness: white queen h5 takes f7 and
mates. -/
def c9State : GameState :=
  mkState
    [("queen_white_1", "h5"), ("king_white", "e1"), ("king_black", "e8")]
    [mkObj "h5", mkObj "f7", mkObj "e1", mkObj "e8",
     mkObj "queen_white_1", mkObj "king_white", mkObj "king_black"]
    (some "queen_white_1")

/-- The record for that mating queen move. -/
def c9Record : MoveRec :=
  ⟨"h5", "f7", "Qxf7#", "c", none⟩

/-- A bot reply record used for the opponent-side witness conjuncts. -/
def c9BotRecord : MoveRec :=
  ⟨"d8", "h4", "Qh4#", "n", none⟩

/-- A state on the opponent's turn for the opponent-side witness conjuncts. -/
def c9BotState : GameState :=
  { world := { boardState := [("queen_black_1", "d8"), ("king_black", "e8"),
                              ("king_white", "e1")],
               scene := [mkObj "d8", mkObj "h4", mkObj "e8", mkObj "e1",
                         mkObj "queen_black_1", mkObj "king_black", mkObj "king_white"] },
    isPlayerTurn := false, selectedPiece := none, validMoves := [],
    previousMove := none, verdictText := none, verdictShown := false }

end Chess3d


namespace Chess3d

/-! ### Helper lemmas: string utilities and decimal rendering -/

theorem prefixB_self_append (l r : List Char) : prefixB l (l ++ r) = true := by
  induction l with
  | nil => rfl
  | cons a as ih => simp [prefixB, ih]

theorem infixB_of_prefixB (pat l : List Char) (h : prefixB pat l = true) :
    infixB pat l = true := by
  cases l with
  | nil => simpa [infixB] using h
  | cons b bs => simp [infixB, h]

theorem digitChar_inj (m n : Nat) (hm : m < 10) (hn : n < 10)
    (h : digitChar m = digitChar n) : m = n := by
  interval_cases m <;> interval_cases n <;> revert h <;> decide

theorem natReprAux_ne_nil (fuel n : Nat) (h : n < fuel) : natReprAux fuel n ≠ [] := by
  cases fuel with
  | zero => omega
  | succ f =>
      simp only [natReprAux]
      split <;> simp

theorem natReprAux_fuel_succ : ∀ (f n : Nat), n < f → natReprAux (f + 1) n = natReprAux f n := by
  intro f
  induction f with
  | zero => intro n h; omega
  | succ g ih =>
      intro n h
      show (if n < 10 then [digitChar n] else natReprAux (g + 1) (n / 10) ++ [digitChar (n % 10)])
         = (if n < 10 then [digitChar n] else natReprAux g (n / 10) ++ [digitChar (n % 10)])
      by_cases h10 : n < 10
      · rw [if_pos h10, if_pos h10]
      · have hdiv : n / 10 < n := Nat.div_lt_self (by omega) (by omega)
        rw [if_neg h10, if_neg h10, ih (n / 10) (by omega)]

theorem natReprAux_fuel_ge : ∀ (k f n : Nat), n < f → natReprAux (f + k) n = natReprAux f n := by
  intro k
  induction k with
  | zero => intro f n _; rfl
  | succ j ih =>
      intro f n h
      have : f + (j + 1) = (f + j) + 1 := by omega
      rw [this, natReprAux_fuel_succ (f + j) n (by omega), ih f n h]

theorem natReprAux_inj : ∀ (fuel m n : Nat), m < fuel → n < fuel →
    natReprAux fuel m = natReprAux fuel n → m = n := by
  intro fuel
  induction fuel with
  | zero => intro m n h _ _; omega
  | succ f ih =>
      intro m n hm hn h
      simp only [natReprAux] at h
      by_cases h1 : m < 10 <;> by_cases h2 : n < 10
      · rw [if_pos h1, if_pos h2] at h
        simp only [List.cons.injEq, and_true] at h
        exact digitChar_inj _ _ h1 h2 h
      · rw [if_pos h1, if_neg h2] at h
        have hdiv : n / 10 < n := Nat.div_lt_self (by omega) (by omega)
        have hne := natReprAux_ne_nil f (n / 10) (by omega)
        have hlen := congrArg List.length h
        simp only [List.length_cons, List.length_nil, List.length_append] at hlen
        exact absurd (List.length_eq_zero.mp (by omega)) hne
      · rw [if_neg h1, if_pos h2] at h
        have hdiv : m / 10 < m := Nat.div_lt_self (by omega) (by omega)
        have hne := natReprAux_ne_nil f (m / 10) (by omega)
        have hlen := congrArg List.length h
        simp only [List.length_cons, List.length_nil, List.length_append] at hlen
        exact absurd (List.length_eq_zero.mp (by omega)) hne
      · rw [if_neg h1, if_neg h2] at h
        have hdm : m / 10 < m := Nat.div_lt_self (by omega) (by omega)
        have hdn : n / 10 < n := Nat.div_lt_self (by omega) (by omega)
        have hd := congrArg List.dropLast h
        simp only [List.dropLast_concat] at hd
        have hl := congrArg List.getLast? h
        simp only [List.getLast?_concat, Option.some.injEq] at hl
        have e1 : m / 10 = n / 10 := ih _ _ (by omega) (by omega) hd
        have e2 : m % 10 = n % 10 := digitChar_inj _ _ (by omega) (by omega) hl
        omega

theorem natRepr_inj (m n : Nat) (h : natRepr m = natRepr n) : m = n := by
  have hdata : natReprAux (m + 1) m = natReprAux (n + 1) n := congrArg String.data h
  have hm : natReprAux (m + n + 1) m = natReprAux (m + 1) m := by
    have : m + n + 1 = (m + 1) + n := by omega
    rw [this]; exact natReprAux_fuel_ge n (m + 1) m (by omega)
  have hn : natReprAux (m + n + 1) n = natReprAux (n + 1) n := by
    have : m + n + 1 = (n + 1) + m := by omega
    rw [this]; exact natReprAux_fuel_ge m (n + 1) n (by omega)
  exact natReprAux_inj (m + n + 1) m n (by omega) (by omega) (by rw [hm, hn, hdata])

end Chess3d

namespace Chess3d

/-! ### Helper lemmas: Board Registry operations -/

theorem getPiecePosition_eq_none (bs : BoardState) (k : String)
    (h : ∀ e ∈ bs, e.1 ≠ k) : getPiecePosition bs k = none := by
  unfold getPiecePosition
  have hf : bs.find? (fun e => e.1 == k) = none := by
    rw [List.find?_eq_none]
    intro e he
    simpa using h e he
  rw [hf]

theorem getPieceAt_eq_none (bs : BoardState) (sq : String)
    (h : ∀ e ∈ bs, e.2 ≠ sq) : getPieceAt bs sq = none := by
  unfold getPieceAt
  have hf : bs.find? (fun e => e.2 == sq) = none := by
    rw [List.find?_eq_none]
    intro e he
    simpa using h e he
  rw [hf]

theorem mem_of_getPiecePosition (bs : BoardState) (k v : String)
    (h : getPiecePosition bs k = some v) : (k, v) ∈ bs := by
  unfold getPiecePosition at h
  cases hf : bs.find? (fun e => e.1 == k) with
  | none => rw [hf] at h; cases h
  | some e =>
      rw [hf] at h
      simp only [Option.some.injEq] at h
      have hp := List.find?_some hf
      have hm := List.mem_of_find?_eq_some hf
      obtain ⟨e1, e2⟩ := e
      simp only [beq_iff_eq] at hp
      subst hp
      simp only at h
      subst h
      exact hm

theorem mem_of_getPieceAt (bs : BoardState) (sq k : String)
    (h : getPieceAt bs sq = some k) : (k, sq) ∈ bs := by
  unfold getPieceAt at h
  cases hf : bs.find? (fun e => e.2 == sq) with
  | none => rw [hf] at h; cases h
  | some e =>
      rw [hf] at h
      simp only [Option.some.injEq] at h
      have hp := List.find?_some hf
      have hm := List.mem_of_find?_eq_some hf
      obtain ⟨e1, e2⟩ := e
      simp only [beq_iff_eq] at hp
      subst hp
      simp only at h
      subst h
      exact hm

theorem getPiecePosition_of_mem (bs : BoardState) (k v : String)
    (hk : (bs.map Prod.fst).Nodup) (hm : (k, v) ∈ bs) :
    getPiecePosition bs k = some v := by
  induction bs with
  | nil => cases hm
  | cons e tl ih =>
      simp only [List.map_cons, List.nodup_cons] at hk
      obtain ⟨hk1, hk2⟩ := hk
      rcases List.mem_cons.mp hm with he | htl
      · rw [← he]
        have hf : List.find? (fun x => x.1 == k) ((k, v) :: tl) = some (k, v) :=
          List.find?_cons_of_pos _ (by simp)
        simp [getPiecePosition, hf]
      · have hne : ¬ ((fun x : String × String => x.1 == k) e) = true := by
          simp only [beq_iff_eq]
          intro hek
          exact hk1 (hek ▸ List.mem_map.mpr ⟨(k, v), htl, rfl⟩)
        have hf : List.find? (fun x => x.1 == k) (e :: tl) =
            List.find? (fun x => x.1 == k) tl := List.find?_cons_of_neg _ hne
        unfold getPiecePosition at ih ⊢
        rw [hf]
        exact ih hk2 htl

theorem getPieceAt_of_mem (bs : BoardState) (k v : String)
    (hv : (bs.map Prod.snd).Nodup) (hm : (k, v) ∈ bs) :
    getPieceAt bs v = some k := by
  induction bs with
  | nil => cases hm
  | cons e tl ih =>
      simp only [List.map_cons, List.nodup_cons] at hv
      obtain ⟨hv1, hv2⟩ := hv
      rcases List.mem_cons.mp hm with he | htl
      · rw [← he]
        have hf : List.find? (fun x => x.2 == v) ((k, v) :: tl) = some (k, v) :=
          List.find?_cons_of_pos _ (by simp)
        simp [getPieceAt, hf]
      · have hne : ¬ ((fun x : String × String => x.2 == v) e) = true := by
          simp only [beq_iff_eq]
          intro hev
          exact hv1 (hev ▸ List.mem_map.mpr ⟨(k, v), htl, rfl⟩)
        have hf : List.find? (fun x => x.2 == v) (e :: tl) =
            List.find? (fun x => x.2 == v) tl := List.find?_cons_of_neg _ hne
        unfold getPieceAt at ih ⊢
        rw [hf]
        exact ih hv2 htl

theorem mem_bsDelete_iff (bs : BoardState) (k : String) (e : String × String) :
    e ∈ bsDelete bs k ↔ e ∈ bs ∧ e.1 ≠ k := by
  simp [bsDelete, List.mem_filter]

theorem bsDelete_keys_nodup (bs : BoardState) (k : String)
    (h : (bs.map Prod.fst).Nodup) : ((bsDelete bs k).map Prod.fst).Nodup :=
  List.Nodup.sublist (List.Sublist.map _ (List.filter_sublist _)) h

theorem bsDelete_vals_nodup (bs : BoardState) (k : String)
    (h : (bs.map Prod.snd).Nodup) : ((bsDelete bs k).map Prod.snd).Nodup :=
  List.Nodup.sublist (List.Sublist.map _ (List.filter_sublist _)) h

theorem bsSet_eq_append (bs : BoardState) (k v : String)
    (h : ∀ e ∈ bs, e.1 ≠ k) : bsSet bs k v = bs ++ [(k, v)] := by
  unfold bsSet
  rw [if_neg]
  intro hany
  simp only [List.any_eq_true] at hany
  obtain ⟨e, he, hek⟩ := hany
  exact h e he (by simpa using hek)

theorem getPiecePosition_append_fresh (l : BoardState) (k v : String)
    (h : ∀ e ∈ l, e.1 ≠ k) : getPiecePosition (l ++ [(k, v)]) k = some v := by
  induction l with
  | nil =>
      have hf : List.find? (fun x => x.1 == k) [(k, v)] = some (k, v) :=
        List.find?_cons_of_pos _ (by simp)
      simp [getPiecePosition, hf]
  | cons e tl ih =>
      have hne : ¬ ((fun x : String × String => x.1 == k) e) = true := by
        simpa using h e (List.mem_cons_self e tl)
      have hf : List.find? (fun x => x.1 == k) (e :: (tl ++ [(k, v)])) =
          List.find? (fun x => x.1 == k) (tl ++ [(k, v)]) :=
        List.find?_cons_of_neg _ hne
      unfold getPiecePosition at ih ⊢
      rw [List.cons_append, hf]
      exact ih (fun e' he' => h e' (List.mem_cons_of_mem e he'))

theorem getPiecePosition_setmap (bs : BoardState) (k v : String)
    (h : bs.any (fun e => e.1 == k) = true) :
    getPiecePosition (bs.map (fun e => if e.1 == k then (k, v) else e)) k = some v := by
  induction bs with
  | nil => cases h
  | cons e tl ih =>
      simp only [List.map_cons]
      by_cases hek : (e.1 == k) = true
      · rw [if_pos hek]
        have hf : List.find? (fun x => x.1 == k)
            ((k, v) :: tl.map (fun e => if e.1 == k then (k, v) else e)) = some (k, v) :=
          List.find?_cons_of_pos _ (by simp)
        simp [getPiecePosition, hf]
      · rw [if_neg hek]
        have h' : tl.any (fun e => e.1 == k) = true := by
          simp only [List.any_cons, Bool.or_eq_true] at h
          rcases h with h | h
          · exact absurd h hek
          · exact h
        have hf : List.find? (fun x => x.1 == k)
            (e :: tl.map (fun e => if e.1 == k then (k, v) else e)) =
            List.find? (fun x => x.1 == k)
              (tl.map (fun e => if e.1 == k then (k, v) else e)) :=
          List.find?_cons_of_neg _ hek
        unfold getPiecePosition at ih ⊢
        rw [hf]
        exact ih h'

theorem getPiecePosition_bsSet_self (bs : BoardState) (k v : String) :
    getPiecePosition (bsSet bs k v) k = some v := by
  unfold bsSet
  by_cases h : bs.any (fun e => e.1 == k) = true
  · rw [if_pos h]
    exact getPiecePosition_setmap bs k v h
  · rw [if_neg h]
    apply getPiecePosition_append_fresh
    intro e he hek
    exact h (List.any_eq_true.mpr ⟨e, he, by simpa using hek⟩)

theorem mem_bsSet (bs : BoardState) (k v : String) (e : String × String)
    (he : e ∈ bsSet bs k v) : e = (k, v) ∨ (e ∈ bs ∧ e.1 ≠ k) := by
  unfold bsSet at he
  by_cases h : bs.any (fun e => e.1 == k) = true
  · rw [if_pos h] at he
    obtain ⟨e0, he0, hfe⟩ := List.mem_map.mp he
    by_cases he0k : (e0.1 == k) = true
    · rw [if_pos he0k] at hfe
      exact Or.inl hfe.symm
    · rw [if_neg he0k] at hfe
      exact Or.inr ⟨hfe ▸ he0, by subst hfe; simpa using he0k⟩
  · rw [if_neg h] at he
    rcases List.mem_append.mp he with hbs | hone
    · refine Or.inr ⟨hbs, ?_⟩
      intro hek
      exact h (List.any_eq_true.mpr ⟨e, hbs, by simpa using hek⟩)
    · simp only [List.mem_singleton] at hone
      exact Or.inl hone

end Chess3d

namespace Chess3d

/-! ### Helper lemmas: scene operations and executor steps -/

theorem getSceneObject_eq_none_iff (scene : List Obj) (nm : String) :
    getSceneObject scene (some nm) = none ↔ ∀ o ∈ scene, o.name ≠ nm := by
  simp [getSceneObject, List.find?_eq_none]

theorem getSceneObject_some (scene : List Obj) (nm : String) (o : Obj)
    (h : getSceneObject scene (some nm) = some o) : o ∈ scene ∧ o.name = nm := by
  unfold getSceneObject at h
  exact ⟨List.mem_of_find?_eq_some h, by simpa using List.find?_some h⟩

theorem removePieceFromBoard_hides (scene : List Obj) (po o : Obj)
    (ho : o ∈ removePieceFromBoard scene (some po)) (hn : o.name = po.name) :
    o.visible = false := by
  unfold removePieceFromBoard at ho
  obtain ⟨o₀, ho₀, hfe⟩ := List.mem_map.mp ho
  by_cases hname : (o₀.name == po.name) = true
  · rw [if_pos hname] at hfe
    rw [← hfe]
  · rw [if_neg hname] at hfe
    rw [← hfe] at hn
    exact absurd hn (by simpa using hname)

theorem removePieceFromBoard_names (scene : List Obj) (poo : Option Obj) (o : Obj)
    (ho : o ∈ removePieceFromBoard scene poo) : ∃ o₀ ∈ scene, o.name = o₀.name := by
  cases poo with
  | none => exact ⟨o, ho, rfl⟩
  | some po =>
      unfold removePieceFromBoard at ho
      obtain ⟨o₀, ho₀, hfe⟩ := List.mem_map.mp ho
      refine ⟨o₀, ho₀, ?_⟩
      rw [← hfe]
      split <;> rfl

theorem removePieceFromBoard_exists_name (scene : List Obj) (poo : Option Obj) (nm : String)
    (h : ∃ q ∈ scene, q.name = nm) : ∃ q ∈ removePieceFromBoard scene poo, q.name = nm := by
  obtain ⟨q, hq, hqn⟩ := h
  cases poo with
  | none => exact ⟨q, hq, hqn⟩
  | some po =>
      unfold removePieceFromBoard
      refine ⟨_, List.mem_map_of_mem _ hq, ?_⟩
      show (if (q.name == po.name) = true then
        { q with visible := false, frustumCulled := false } else q).name = nm
      split <;> exact hqn

theorem movePieceOnBoard_of_missing (w : World) (fromP toP : String)
    (h : getPieceAt w.boardState fromP = none) : movePieceOnBoard w fromP toP = w := by
  unfold movePieceOnBoard
  rw [h]

theorem movePieceOnBoard_boardState (w : World) (fromP toP fp : String)
    (hf : getPieceAt w.boardState fromP = some fp)
    (ht : getPieceAt w.boardState toP = none)
    (hsq : getSceneObject w.scene (some toP) ≠ none) :
    (movePieceOnBoard w fromP toP).boardState = bsSet w.boardState fp toP := by
  cases hq : getSceneObject w.scene (some toP) with
  | none => exact absurd hq hsq
  | some q => simp only [movePieceOnBoard, hf, ht, hq]

theorem movePieceOnBoard_scene_pres (w : World) (fromP toP : String) (o : Obj)
    (ht : getPieceAt w.boardState toP = none)
    (ho : o ∈ (movePieceOnBoard w fromP toP).scene) :
    ∃ o₀ ∈ w.scene, o.name = o₀.name ∧ o.visible = o₀.visible := by
  cases hf : getPieceAt w.boardState fromP with
  | none =>
      rw [movePieceOnBoard_of_missing w fromP toP hf] at ho
      exact ⟨o, ho, rfl, rfl⟩
  | some fp =>
      cases hq : getSceneObject w.scene (some toP) with
      | none =>
          unfold movePieceOnBoard at ho
          simp only [hf, ht, hq] at ho
          exact ⟨o, ho, rfl, rfl⟩
      | some q =>
          unfold movePieceOnBoard at ho
          simp only [hf, ht, hq, List.mem_map] at ho
          obtain ⟨o₀, ho₀, hfe⟩ := ho
          refine ⟨o₀, ho₀, ?_, ?_⟩ <;> rw [← hfe] <;> split <;> rfl

theorem addPieceAt_boardState (w : World) (po : Obj) (toP : String) :
    (addPieceAt w (some po) toP).boardState = bsSet w.boardState po.name toP := by
  cases hq : getSceneObject w.scene (some toP) with
  | none => simp only [addPieceAt, hq]
  | some q => simp only [addPieceAt, hq]

theorem captureEnPassantPawn_boardState (w : World) (pm : MoveRec) (c : String)
    (hc : getPieceAt w.boardState pm.toSq = some c) :
    (captureEnPassantPawn w (some pm)).boardState = bsDelete w.boardState c := by
  simp only [captureEnPassantPawn, hc]

theorem captureEnPassantPawn_scene_hides (w : World) (pm : MoveRec) (c : String) (o : Obj)
    (hc : getPieceAt w.boardState pm.toSq = some c)
    (ho : o ∈ (captureEnPassantPawn w (some pm)).scene)
    (hn : o.name = c) : o.visible = false := by
  simp only [captureEnPassantPawn, hc] at ho
  cases hso : getSceneObject w.scene (some c) with
  | none =>
      rw [hso] at ho
      simp only [removePieceFromBoard] at ho
      exact absurd hn ((getSceneObject_eq_none_iff w.scene c).mp hso o ho)
  | some po =>
      rw [hso] at ho
      have hpo := getSceneObject_some _ _ _ hso
      exact removePieceFromBoard_hides _ _ _ ho (by rw [hn, hpo.2])

theorem captureEnPassantPawn_scene_exists (w : World) (pmo : Option MoveRec) (nm : String)
    (h : ∃ q ∈ w.scene, q.name = nm) :
    ∃ q ∈ (captureEnPassantPawn w pmo).scene, q.name = nm := by
  cases pmo with
  | none => exact h
  | some pm =>
      simp only [captureEnPassantPawn]
      exact removePieceFromBoard_exists_name _ _ _ h

theorem unset_eq (st : GameState) :
    unsetSelectedPieceAndValidMoves st = { st with selectedPiece := none, validMoves := [] } := by
  obtain ⟨w, ipt, sel, vm, pm, vt, vs⟩ := st
  unfold unsetSelectedPieceAndValidMoves unsetValidMoves unsetSelectedPiece
  cases sel <;> rfl

theorem showVerdictIfNecessary_world (st : GameState) (cm dr : Bool) :
    (showVerdictIfNecessary st cm dr).world = st.world := by
  cases cm <;> cases dr <;> rfl

theorem showVerdictIfNecessary_turn (st : GameState) (cm dr : Bool) :
    (showVerdictIfNecessary st cm dr).isPlayerTurn = st.isPlayerTurn := by
  cases cm <;> cases dr <;> rfl

theorem showVerdictIfNecessary_checkmate (st : GameState) :
    (showVerdictIfNecessary st true false).verdictText =
      some ("Checkmate! (" ++ (if !st.isPlayerTurn then "Player" else "Computer") ++ " wins)") ∧
    (showVerdictIfNecessary st true false).verdictShown = true :=
  ⟨rfl, rfl⟩

theorem showVerdictIfNecessary_draw (st : GameState) :
    (showVerdictIfNecessary st false true).verdictText = some "Draw!" ∧
    (showVerdictIfNecessary st false true).verdictShown = true :=
  ⟨rfl, rfl⟩

end Chess3d

namespace Chess3d

/-! ### Claim theorems -/

/-- C1: refuted on the code.  After white's queenside castle that gives check
(position `c1State`; the engine's record has san `O-O-O+` and castle flag
`q`), the Board Registry's occupancy differs from the Rules Engine's own
board: `isQueenSideCastling` compares san to exactly `"O-O-O"`, so the rook is
never relocated and the registry still occupies a1 and leaves d1 empty, while
the engine's board occupies d1 and leaves a1 empty. -/
theorem c1_castle_check_occupancy_divergence :
    recordIsCastle c1Record = true ∧
    (getPieceAt c1FinalBS "d1").isSome = false ∧
    (getPieceAt c1EngineBoardAfter "d1").isSome = true ∧
    (getPieceAt c1FinalBS "a1").isSome = true ∧
    (getPieceAt c1EngineBoardAfter "a1").isSome = false := by
  decide

/-- C2: refuted on the code.  A capture-promotion (white pawn g7 takes the
h8 rook and promotes to a queen, state `c2State`) leaves the captured rook's
identity in the Board Registry at h8 alongside the freshly minted promoted
queen: `removePawnAndAddPromotedPiece` never removes the destination's
occupant, and the subsequent `movePieceOnBoard` returns early because the
pawn is already gone from the registry, so its capture branch never runs.
The mapping is no longer injective. -/
theorem c2_capture_promotion_duplicate_square :
    getPiecePosition c2FinalBS "rook_black_1" = some "h8" ∧
    getPiecePosition c2FinalBS "queen_white_2" = some "h8" ∧
    ¬ (c2FinalBS.map Prod.snd).Nodup := by
  decide

/-- C3: refuted on the code.  For a kingside castle that gives check
(position `c3State`; the engine's record has san `O-O+` and castle flag `k`),
the executor does not relocate the rook: `isKingSideCastling` compares san to
exactly `"O-O"`, so the `O-O+` record is not recognized as a castle and
`rook_white_1` stays on h1 with f1 left empty. -/
theorem c3_castle_check_rook_not_relocated :
    recordIsCastle c3Record = true ∧
    isCastlingMove c3Record = false ∧
    getPiecePosition c3FinalBS "rook_white_1" = some "h1" ∧
    getPieceAt c3FinalBS "f1" = none := by
  decide

/-- C7 counterexample: the code requests a promotion choice for a selected
white pawn aimed at d1 (rank 1), although rank 1 is not the farthest rank for
white: the source's `shouldPromote` tests rank 8 or 1 without regard to the
pawn's color, so the claim's "exactly when ... the farthest rank for its
color" fails on this input. -/
theorem c7_counterexample_white_pawn_rank_one_prompt :
    Ev.promptPromotion ∈ (moveSelectedPiece c7State "d1" "queen" none false false).events ∧
    specShouldPromote "pawn_white_1" "d1" = false := by
  decide

/-- C8 counterexample: for the reply `bestmove e2e1x` (promotion character
`x`, not one of q/n/b/r), the opponent path submits the raw character `x` to
the rules engine rather than a queen; chess.js rejects a promotion submission
whose promotion piece matches no legal move, which is embedded as
`gameMoveResult = none`, and `onBotMessage` has no try/catch, so the move
fails (uncaught throw) with no state change instead of completing with a
queen substituted. -/
theorem c8_counterexample_raw_promotion_letter :
    (onBotMessage c8State "bestmove e2e1x" none false false).events =
      [Ev.submitMove "e2" "e1" "x"] ∧
    (onBotMessage c8State "bestmove e2e1x" none false false).threw = true ∧
    (onBotMessage c8State "bestmove e2e1x" none false false).state = c8State := by
  decide

end Chess3d

namespace Chess3d

/-- C10: the promotion-choice wait is single-shot.  Starting from a freshly
installed resolver (`deferredPromise`), any sequence of `onPromote`
invocations resolves the wait at most once, because the installed resolver
clears the single slot on its first invocation; and any `onPromote` arriving
while no resolver is installed is a no-op on the coordinator state (the
handler returns before touching anything). -/
theorem c10_single_shot_promotion_wait :
    (∀ inputs : List (Bool × Option String),
      ((inputs.foldl (fun s i => onPromoteStep s i.1 i.2)
        (deferredPromiseStep ⟨false, []⟩)).resolved).length ≤ 1) ∧
    (∀ (s : PromoState) (t : Bool) (v : Option String),
      s.pending = false → onPromoteStep s t v = s) := by
  constructor
  · have inv : ∀ (inputs : List (Bool × Option String)) (s : PromoState),
        s.resolved.length ≤ 1 → (s.pending = true → s.resolved.length = 0) →
        ((inputs.foldl (fun s i => onPromoteStep s i.1 i.2) s).resolved).length ≤ 1 := by
      intro inputs
      induction inputs with
      | nil =>
          intro s h1 _
          simpa using h1
      | cons i rest ih =>
          intro s h1 h2
          simp only [List.foldl_cons]
          apply ih
          · unfold onPromoteStep
            split
            · exact h1
            · rename_i hcond
              simp only [Bool.or_eq_true, Bool.not_eq_true', not_or] at hcond
              have hp : s.pending = true := by
                rcases hcond with ⟨_, hpend⟩
                revert hpend
                cases s.pending <;> simp
              simp [h2 hp]
          · unfold onPromoteStep
            split
            · exact h2
            · intro hcontra
              simp at hcontra
    intro inputs
    exact inv inputs _ (by simp [deferredPromiseStep]) (by simp [deferredPromiseStep])
  · intro s t v h
    unfold onPromoteStep
    rw [if_pos]
    rw [h]
    cases t <;> rfl

/-- C6: when the Rules Engine rejects the human submission (`game.move`
throws), the executor aborts with the world (Board Registry and every
renderable) unchanged, the selection and valid-move list cleared, the turn
flag unflipped, and no search request sent to the opponent worker (the
exception skips `makeBotMove` and is swallowed by the caller's catch). -/
theorem c6_engine_reject_aborts (st : GameState) (sp fromP toP choice : String)
    (cm dr : Bool)
    (hsel : st.selectedPiece = some sp)
    (hfrom : getPiecePosition st.world.boardState sp = some fromP) :
    (moveSelectedPieceAndTriggerBotMove st toP choice none cm dr).state.world = st.world ∧
    (moveSelectedPieceAndTriggerBotMove st toP choice none cm dr).state.isPlayerTurn =
      st.isPlayerTurn ∧
    (moveSelectedPieceAndTriggerBotMove st toP choice none cm dr).state.selectedPiece = none ∧
    (moveSelectedPieceAndTriggerBotMove st toP choice none cm dr).state.validMoves = [] ∧
    Ev.searchGo ∉ (moveSelectedPieceAndTriggerBotMove st toP choice none cm dr).events := by
  have ho : moveSelectedPieceAndTriggerBotMove st toP choice none cm dr =
      ⟨unsetSelectedPieceAndValidMoves st,
        (if shouldPromote sp toP then [Ev.promptPromotion] else []) ++
          [Ev.submitMove fromP toP (getPromotionPieceMoveCharacter
            (if shouldPromote sp toP then some choice else none))], false⟩ := by
    unfold moveSelectedPieceAndTriggerBotMove moveSelectedPiece
    simp only [hsel, hfrom]
    rfl
  rw [ho, unset_eq]
  refine ⟨rfl, rfl, rfl, rfl, ?_⟩
  cases hsp : shouldPromote sp toP <;> simp

/-- C7 amended: for every human move with a selected piece on the board, the
promotion prompt is issued exactly when the selected identity is a pawn and
the destination rank character is `8` or `1`, regardless of the pawn's color
(for legal moves this coincides with the farthest rank for the pawn's color),
and the prompt precedes the single submission, whose promotion character is
derived from the choice. -/
theorem c7_prompt_iff_rank_edge (st : GameState) (sp fromP toP choice : String)
    (resp : Option MoveRec) (cm dr : Bool)
    (hsel : st.selectedPiece = some sp)
    (hfrom : getPiecePosition st.world.boardState sp = some fromP) :
    ∃ promoChar,
      (moveSelectedPiece st toP choice resp cm dr).events =
        (if amendedShouldPromote sp toP then [Ev.promptPromotion] else []) ++
          [Ev.submitMove fromP toP promoChar] := by
  refine ⟨getPromotionPieceMoveCharacter
    (if shouldPromote sp toP then some choice else none), ?_⟩
  have he : amendedShouldPromote sp toP = shouldPromote sp toP := rfl
  rw [he]
  unfold moveSelectedPiece
  simp only [hsel, hfrom]
  cases resp <;> rfl

/-- C9: verdict attribution.  After a completed human move the turn flag has
just been set to `false`, so a checkmate verdict names the Player as winner;
after a completed opponent move it has been set to `true`, so a checkmate
verdict names the Computer; in both paths a draw shows the draw-specific
text.  All four cases display the verdict surface. -/
theorem c9_verdict_attribution :
    (∀ (st : GameState) (sp fromP toP choice : String) (rec : MoveRec),
      st.selectedPiece = some sp →
      getPiecePosition st.world.boardState sp = some fromP →
      (moveSelectedPiece st toP choice (some rec) true false).state.verdictText =
        some "Checkmate! (Player wins)" ∧
      (moveSelectedPiece st toP choice (some rec) true false).state.verdictShown = true) ∧
    (∀ (st : GameState) (msg : String) (rec : MoveRec),
      strIncludes msg "bestmove" = true →
      (onBotMessage st msg (some rec) true false).state.verdictText =
        some "Checkmate! (Computer wins)" ∧
      (onBotMessage st msg (some rec) true false).state.verdictShown = true) ∧
    (∀ (st : GameState) (sp fromP toP choice : String) (rec : MoveRec),
      st.selectedPiece = some sp →
      getPiecePosition st.world.boardState sp = some fromP →
      (moveSelectedPiece st toP choice (some rec) false true).state.verdictText =
        some "Draw!" ∧
      (moveSelectedPiece st toP choice (some rec) false true).state.verdictShown = true) ∧
    (∀ (st : GameState) (msg : String) (rec : MoveRec),
      strIncludes msg "bestmove" = true →
      (onBotMessage st msg (some rec) false true).state.verdictText = some "Draw!" ∧
      (onBotMessage st msg (some rec) false true).state.verdictShown = true) := by
  refine ⟨?_, ?_, ?_, ?_⟩
  · intro st sp fromP toP choice rec hsel hfrom
    unfold moveSelectedPiece
    simp only [hsel, hfrom, unset_eq]
    exact ⟨rfl, rfl⟩
  · intro st msg rec hmsg
    unfold onBotMessage
    simp only [hmsg]
    exact ⟨rfl, rfl⟩
  · intro st sp fromP toP choice rec hsel hfrom
    unfold moveSelectedPiece
    simp only [hsel, hfrom, unset_eq]
    exact ⟨rfl, rfl⟩
  · intro st msg rec hmsg
    unfold onBotMessage
    simp only [hmsg]
    exact ⟨rfl, rfl⟩

end Chess3d

namespace Chess3d

theorem pieceCharacterBase_default (c : String)
    (hq : c ≠ "q") (hn : c ≠ "n") (hb : c ≠ "b") (hr : c ≠ "r") :
    pieceCharacterBase false c = "queen_black" := by
  unfold pieceCharacterBase
  have e1 : (c == "q") = false := beq_eq_false_iff_ne.mpr hq
  have e2 : (c == "n") = false := beq_eq_false_iff_ne.mpr hn
  have e3 : (c == "b") = false := beq_eq_false_iff_ne.mpr hb
  have e4 : (c == "r") = false := beq_eq_false_iff_ne.mpr hr
  simp only [List.lookup, e1, e2, e3, e4]
  rfl

/-- C8 amended: the queen default for unrecognized promotion letters applies
only to the visual/registry identity minted by `getPieceCharacterToPiece`
(first conjunct of the mapping below); the character actually submitted to
the rules engine is the raw fifth character of the move code, unsanitized
(second conjunct), so an unrecognized letter reaches `game.move` as-is and
the move completes only if the engine accepts that raw character. -/
theorem c8_raw_submission_and_visual_queen_default :
    (∀ (scene : List Obj) (c : String),
      c ≠ "q" → c ≠ "n" → c ≠ "b" → c ≠ "r" →
      (∃ o ∈ scene, strIncludes o.name "queen_black" = true) →
      ∃ ob, getPieceCharacterToPiece scene false c = some ob ∧
        ∃ k, ob.name = "queen_black_" ++ natRepr k) ∧
    (∀ (st : GameState) (msg : String) (resp : Option MoveRec) (cm dr : Bool),
      strIncludes msg "bestmove" = true →
      (onBotMessage st msg resp cm dr).events =
        [Ev.submitMove (getBestMoveDetails msg).1 (getBestMoveDetails msg).2.1
          (getBestMoveDetails msg).2.2]) := by
  constructor
  · intro scene c hq hn hb hr hex
    obtain ⟨t, hmem, ht⟩ := hex
    have hfil : t ∈ scene.filter (fun o => strIncludes o.name "queen_black") :=
      List.mem_filter.mpr ⟨hmem, ht⟩
    cases hlast : (scene.filter (fun o => strIncludes o.name "queen_black")).getLast? with
    | none =>
        rw [List.getLast?_eq_none_iff] at hlast
        rw [hlast] at hfil
        cases hfil
    | some latest =>
        refine ⟨{ latest with name := ("queen_black" ++ "_" ++
            natRepr ((scene.filter (fun o => strIncludes o.name "queen_black")).length + 1)) },
          ?_,
          (scene.filter (fun o => strIncludes o.name "queen_black")).length + 1, ?_⟩
        · simp only [getPieceCharacterToPiece, pieceCharacterBase_default c hq hn hb hr, hlast]
        · show ("queen_black" ++ "_" ++
            natRepr ((scene.filter (fun o => strIncludes o.name "queen_black")).length + 1)) =
            "queen_black_" ++
              natRepr ((scene.filter (fun o => strIncludes o.name "queen_black")).length + 1)
          rfl
  · intro st msg resp cm dr hmsg
    unfold onBotMessage
    simp only [hmsg]
    cases resp <;> rfl

end Chess3d

namespace Chess3d

theorem getPieceAt_none_forall (bs : BoardState) (sq : String)
    (h : getPieceAt bs sq = none) : ∀ e ∈ bs, e.2 ≠ sq := by
  intro e he
  unfold getPieceAt at h
  cases hf : bs.find? (fun e => e.2 == sq) with
  | none => simpa using List.find?_eq_none.mp hf e he
  | some e' => rw [hf] at h; cases h

theorem getPiecePosition_none_forall (bs : BoardState) (k : String)
    (h : getPiecePosition bs k = none) : ∀ e ∈ bs, e.1 ≠ k := by
  intro e he
  unfold getPiecePosition at h
  cases hf : bs.find? (fun e => e.1 == k) with
  | none => simpa using List.find?_eq_none.mp hf e he
  | some e' => rw [hf] at h; cases h

/-- C4: en passant execution.  For any state whose registry is well formed
(distinct identities, distinct squares), with a selected mover, a recorded
previous move whose destination square holds the captured pawn, and an
engine record flagged `e` (and classified neither castle nor promotion),
executing the move leaves the mover's identity at the destination square,
leaves no identity at the previous move's destination square, and hides
every renderable carrying the captured identity's name. -/
theorem c4_en_passant_execution (st : GameState) (sp fromP toP choice c : String)
    (pm rec : MoveRec) (cm dr : Bool)
    (hsel : st.selectedPiece = some sp)
    (hfrom : getPiecePosition st.world.boardState sp = some fromP)
    (hkN : (st.world.boardState.map Prod.fst).Nodup)
    (hvN : (st.world.boardState.map Prod.snd).Nodup)
    (hpm : st.previousMove = some pm)
    (hc : getPieceAt st.world.boardState pm.toSq = some c)
    (hep : isEnPassantMove rec = true)
    (hncast : isCastlingMove rec = false)
    (hnprom : isPromotionMove rec = false)
    (htoPm : toP ≠ pm.toSq)
    (hfromPm : fromP ≠ pm.toSq)
    (htoEmpty : getPieceAt st.world.boardState toP = none)
    (hsq : ∃ q ∈ st.world.scene, q.name = toP) :
    getPiecePosition
      (moveSelectedPiece st toP choice (some rec) cm dr).state.world.boardState sp =
        some toP ∧
    getPieceAt
      (moveSelectedPiece st toP choice (some rec) cm dr).state.world.boardState pm.toSq =
        none ∧
    (∀ o ∈ (moveSelectedPiece st toP choice (some rec) cm dr).state.world.scene,
      o.name = c → o.visible = false) := by
  have hmemSp : (sp, fromP) ∈ st.world.boardState := mem_of_getPiecePosition _ _ _ hfrom
  have hmemC : (c, pm.toSq) ∈ st.world.boardState := mem_of_getPieceAt _ _ _ hc
  have hspc : sp ≠ c := by
    intro he
    have h2 : getPiecePosition st.world.boardState c = some pm.toSq :=
      getPiecePosition_of_mem _ _ _ hkN hmemC
    rw [he] at hfrom
    exact hfromPm (Option.some.inj (hfrom.symm.trans h2))
  have hw : (moveSelectedPiece st toP choice (some rec) cm dr).state.world =
      movePieceOnBoard (captureEnPassantPawn st.world (some pm)) fromP toP := by
    unfold moveSelectedPiece
    simp [hsel, hfrom, hpm, hncast, hep, hnprom, unset_eq, showVerdictIfNecessary_world]
  have hw2bs : (captureEnPassantPawn st.world (some pm)).boardState =
      bsDelete st.world.boardState c :=
    captureEnPassantPawn_boardState st.world pm c hc
  have hfromW2 : getPieceAt (captureEnPassantPawn st.world (some pm)).boardState fromP =
      some sp := by
    rw [hw2bs]
    exact getPieceAt_of_mem _ _ _ (bsDelete_vals_nodup _ _ hvN)
      ((mem_bsDelete_iff _ _ _).mpr ⟨hmemSp, hspc⟩)
  have htoW2 : getPieceAt (captureEnPassantPawn st.world (some pm)).boardState toP = none := by
    rw [hw2bs]
    apply getPieceAt_eq_none
    intro e he
    exact getPieceAt_none_forall _ _ htoEmpty e ((mem_bsDelete_iff _ _ _).mp he).1
  have hsqW2 : getSceneObject (captureEnPassantPawn st.world (some pm)).scene (some toP) ≠
      none := by
    intro hnone
    obtain ⟨q, hqmem, hqname⟩ :=
      captureEnPassantPawn_scene_exists st.world (some pm) toP hsq
    exact (getSceneObject_eq_none_iff _ _).mp hnone q hqmem hqname
  have hw4bs : (movePieceOnBoard (captureEnPassantPawn st.world (some pm)) fromP toP).boardState =
      bsSet (captureEnPassantPawn st.world (some pm)).boardState sp toP :=
    movePieceOnBoard_boardState _ fromP toP sp hfromW2 htoW2 hsqW2
  refine ⟨?_, ?_, ?_⟩
  · rw [hw, hw4bs]
    exact getPiecePosition_bsSet_self _ _ _
  · rw [hw, hw4bs]
    apply getPieceAt_eq_none
    intro e he h2
    rcases mem_bsSet _ _ _ _ he with heq | ⟨hein, hne⟩
    · rw [heq] at h2
      exact htoPm h2
    · rw [hw2bs] at hein
      obtain ⟨heinbs, henec⟩ := (mem_bsDelete_iff _ _ _).mp hein
      have hat : getPieceAt st.world.boardState e.2 = some e.1 :=
        getPieceAt_of_mem _ _ _ hvN heinbs
      rw [h2, hc] at hat
      exact henec (Option.some.inj hat).symm
  · intro o ho hname
    rw [hw] at ho
    obtain ⟨o₀, ho₀, hn0, hv0⟩ := movePieceOnBoard_scene_pres _ fromP toP o htoW2 ho
    rw [hv0]
    refine captureEnPassantPawn_scene_hides st.world pm c o₀ hc ho₀ ?_
    rw [← hn0]
    exact hname

end Chess3d

namespace Chess3d

theorem filter_map_names (l : List Obj) (f : Obj → Obj) (hf : ∀ o, (f o).name = o.name)
    (p : String → Bool) :
    ((l.map f).filter (fun o => p o.name)).map (fun o => o.name) =
      (l.filter (fun o => p o.name)).map (fun o => o.name) := by
  induction l with
  | nil => rfl
  | cons a tl ih =>
      simp only [List.map_cons, List.filter_cons, hf a]
      cases hp : p a.name with
      | true => simp only [if_true, List.map_cons, hf a, ih]
      | false => simp only [Bool.false_eq_true, if_false, ih]

theorem filter_names_removePieceFromBoard (scene : List Obj) (poo : Option Obj)
    (p : String → Bool) :
    ((removePieceFromBoard scene poo).filter (fun o => p o.name)).map (fun o => o.name) =
      (scene.filter (fun o => p o.name)).map (fun o => o.name) := by
  cases poo with
  | none => rfl
  | some po =>
      unfold removePieceFromBoard
      apply filter_map_names
      intro o
      split <;> rfl

theorem strIncludes_white_prefix (choice s : String) :
    strIncludes (choice ++ "_white_" ++ s) (choice ++ "_white") = true := by
  show infixB (choice ++ "_white").toList (choice ++ "_white_" ++ s).toList = true
  have hw : ("_white_" : String).data = ("_white" : String).data ++ ['_'] := by decide
  have hchars : (choice ++ "_white_" ++ s).toList =
      (choice ++ "_white").toList ++ ('_' :: s.toList) := by
    show (choice.data ++ ("_white_" : String).data) ++ s.data =
      (choice.data ++ ("_white" : String).data) ++ ('_' :: s.data)
    rw [hw]
    simp only [List.append_assoc, List.singleton_append]
  rw [hchars]
  exact infixB_of_prefixB _ _ (prefixB_self_append _ _)

theorem getPromotionPieceObject_name (scene : List Obj) (p : String)
    (hne : scene.filter (fun o => strIncludes o.name (p ++ "_white")) ≠ []) :
    ∃ t, getPromotionPieceObject scene p = some t ∧
      t.name = p ++ "_white_" ++ natRepr
        ((scene.filter (fun o => strIncludes o.name (p ++ "_white"))).length + 1) := by
  cases hlast : (scene.filter (fun o => strIncludes o.name (p ++ "_white"))).getLast? with
  | none => exact absurd (List.getLast?_eq_none_iff.mp hlast) hne
  | some latest =>
      refine ⟨{ latest with name := (p ++ "_white_" ++ natRepr
        ((scene.filter (fun o => strIncludes o.name (p ++ "_white"))).length + 1)) }, ?_, rfl⟩
      simp only [getPromotionPieceObject, hlast]

/-- C5: human promotion mints a fresh identity.  For any well-formed state
(distinct identities and squares in the registry, every registry identity
backed by a scene object) with a selected pawn eligible for promotion and an
engine record flagged as promotion, and a scene whose objects matching
`<choice>_white` are exactly the identities `<choice>_white_1 ...
<choice>_white_n`, executing the move removes the pawn identity from the
registry, adds the new identity `<choice>_white_<n+1>` at the destination,
and that identity differs from the name of every pre-existing scene object
(in particular from every earlier identity of that type, promotions
included). -/
theorem c5_promotion_fresh_identity (st : GameState) (sp fromP toP choice : String)
    (rec : MoveRec) (cm dr : Bool) (n : Nat)
    (hsel : st.selectedPiece = some sp)
    (hfrom : getPiecePosition st.world.boardState sp = some fromP)
    (hsp : shouldPromote sp toP = true)
    (hvN : (st.world.boardState.map Prod.snd).Nodup)
    (hkeys : ∀ e ∈ st.world.boardState, ∃ o ∈ st.world.scene, o.name = e.1)
    (hncast : isCastlingMove rec = false)
    (hnep : isEnPassantMove rec = false)
    (hprom : isPromotionMove rec = true)
    (hn : n = (st.world.scene.filter
      (fun o => strIncludes o.name (choice ++ "_white"))).length)
    (hn0 : n ≠ 0)
    (hnames : ∀ o ∈ st.world.scene,
      strIncludes o.name (choice ++ "_white") = true →
      ∃ i ∈ List.range n, o.name = choice ++ "_white_" ++ natRepr (i + 1))
    (htf : toP ≠ fromP) :
    getPiecePosition
      (moveSelectedPiece st toP choice (some rec) cm dr).state.world.boardState sp = none ∧
    getPiecePosition
      (moveSelectedPiece st toP choice (some rec) cm dr).state.world.boardState
      (choice ++ "_white_" ++ natRepr (n + 1)) = some toP ∧
    (∀ o ∈ st.world.scene, o.name ≠ choice ++ "_white_" ++ natRepr (n + 1)) := by
  have hmemSp : (sp, fromP) ∈ st.world.boardState := mem_of_getPiecePosition _ _ _ hfrom
  have hfresh : ∀ o ∈ st.world.scene, o.name ≠ choice ++ "_white_" ++ natRepr (n + 1) := by
    intro o ho heq
    have hinc : strIncludes o.name (choice ++ "_white") = true := by
      rw [heq]
      exact strIncludes_white_prefix choice (natRepr (n + 1))
    obtain ⟨i, hi, hname⟩ := hnames o ho hinc
    rw [heq] at hname
    have hdata := congrArg String.data hname
    have hcancel : (natRepr (n + 1)).data = (natRepr (i + 1)).data :=
      List.append_cancel_left hdata
    have hrepr : natRepr (n + 1) = natRepr (i + 1) := congrArg String.mk hcancel
    have hni := natRepr_inj _ _ hrepr
    have hilt := List.mem_range.mp hi
    omega
  have hspname : sp ≠ choice ++ "_white_" ++ natRepr (n + 1) := by
    obtain ⟨o, ho, honame⟩ := hkeys (sp, fromP) hmemSp
    intro he
    exact hfresh o ho (by rw [honame]; exact he)
  have hw : (moveSelectedPiece st toP choice (some rec) cm dr).state.world =
      movePieceOnBoard
        (addPieceAt (removePawn st.world (some sp))
          (getPromotionPieceObject (removePawn st.world (some sp)).scene choice) toP)
        fromP toP := by
    unfold moveSelectedPiece removePawnAndAddPromotedPiece addPromotedPiece
    simp [hsel, hfrom, hsp, hncast, hnep, hprom, unset_eq, showVerdictIfNecessary_world]
  have hw1sc : (removePawn st.world (some sp)).scene =
      removePieceFromBoard st.world.scene (getSceneObject st.world.scene (some sp)) := rfl
  have hfilter : (((removePawn st.world (some sp)).scene.filter
      (fun o => strIncludes o.name (choice ++ "_white"))).map (fun o => o.name)) =
      ((st.world.scene.filter (fun o => strIncludes o.name (choice ++ "_white"))).map
        (fun o => o.name)) := by
    rw [hw1sc]
    exact filter_names_removePieceFromBoard st.world.scene
      (getSceneObject st.world.scene (some sp))
      (fun nm => strIncludes nm (choice ++ "_white"))
  have hlen : ((removePawn st.world (some sp)).scene.filter
      (fun o => strIncludes o.name (choice ++ "_white"))).length = n := by
    rw [hn]
    have hh := congrArg List.length hfilter
    simpa [List.length_map] using hh
  have hne : (removePawn st.world (some sp)).scene.filter
      (fun o => strIncludes o.name (choice ++ "_white")) ≠ [] := by
    intro hnil
    rw [hnil] at hlen
    exact hn0 (by simpa using hlen.symm)
  obtain ⟨t, htobj, htname⟩ :=
    getPromotionPieceObject_name (removePawn st.world (some sp)).scene choice hne
  rw [hlen] at htname
  rw [htobj] at hw
  have hbs3 : (addPieceAt (removePawn st.world (some sp)) (some t) toP).boardState =
      bsDelete st.world.boardState sp ++
        [(choice ++ "_white_" ++ natRepr (n + 1), toP)] := by
    rw [addPieceAt_boardState, htname]
    apply bsSet_eq_append
    intro e he
    obtain ⟨hbs, _⟩ := (mem_bsDelete_iff _ _ _).mp he
    obtain ⟨o, ho, honame⟩ := hkeys e hbs
    intro he1
    exact hfresh o ho (by rw [honame]; exact he1)
  have hmove : movePieceOnBoard
      (addPieceAt (removePawn st.world (some sp)) (some t) toP) fromP toP =
      addPieceAt (removePawn st.world (some sp)) (some t) toP := by
    apply movePieceOnBoard_of_missing
    rw [hbs3]
    apply getPieceAt_eq_none
    intro e he h2
    rcases List.mem_append.mp he with h | h
    · obtain ⟨hbs, hnesp⟩ := (mem_bsDelete_iff _ _ _).mp h
      have hsp2 : getPieceAt st.world.boardState fromP = some sp :=
        getPieceAt_of_mem _ _ _ hvN hmemSp
      have h3 : getPieceAt st.world.boardState e.2 = some e.1 :=
        getPieceAt_of_mem _ _ _ hvN hbs
      rw [h2, hsp2] at h3
      exact hnesp (Option.some.inj h3).symm
    · simp only [List.mem_singleton] at h
      rw [h] at h2
      exact htf h2
  rw [hmove] at hw
  refine ⟨?_, ?_, hfresh⟩
  · rw [hw, hbs3]
    apply getPiecePosition_eq_none
    intro e he
    rcases List.mem_append.mp he with h | h
    · exact ((mem_bsDelete_iff _ _ _).mp h).2
    · simp only [List.mem_singleton] at h
      rw [h]
      intro hh
      exact hspname hh.symm
  · rw [hw, hbs3]
    apply getPiecePosition_append_fresh
    intro e he
    obtain ⟨hbs, _⟩ := (mem_bsDelete_iff _ _ _).mp he
    obtain ⟨o, ho, honame⟩ := hkeys e hbs
    intro he1
    exact hfresh o ho (by rw [honame]; exact he1)

end Chess3d

namespace Chess3d

/-- C4 witness: the concrete e5xd6 en passant capture of the spec's example,
run through the theorem. -/
theorem c4_en_passant_execution_witness :
    getPiecePosition
      (moveSelectedPiece c4State "d6" "queen" (some c4Record) false false).state.world.boardState
      "pawn_white_5" = some "d6" ∧
    getPieceAt
      (moveSelectedPiece c4State "d6" "queen" (some c4Record) false false).state.world.boardState
      "d5" = none ∧
    (∀ o ∈ (moveSelectedPiece c4State "d6" "queen"
        (some c4Record) false false).state.world.scene,
      o.name = "pawn_black_4" → o.visible = false) :=
  c4_en_passant_execution c4State "pawn_white_5" "e5" "d6" "queen" "pawn_black_4"
    ⟨"d7", "d5", "d5", "b", none⟩ c4Record false false
    rfl (by decide) (by decide) (by decide) rfl (by decide) (by decide) (by decide)
    (by decide) (by decide) (by decide) (by decide) (by decide)

/-- C5 witness: the concrete a7-a8 knight promotion with the two original
white knights as templates, run through the theorem. -/
theorem c5_promotion_fresh_identity_witness :
    getPiecePosition
      (moveSelectedPiece c5State "a8" "knight" (some c5Record) false false).state.world.boardState
      "pawn_white_1" = none ∧
    getPiecePosition
      (moveSelectedPiece c5State "a8" "knight" (some c5Record) false false).state.world.boardState
      ("knight" ++ "_white_" ++ natRepr 3) = some "a8" ∧
    (∀ o ∈ c5State.world.scene, o.name ≠ "knight" ++ "_white_" ++ natRepr 3) :=
  c5_promotion_fresh_identity c5State "pawn_white_1" "a7" "a8" "knight" c5Record false false 2
    rfl (by decide) (by decide) (by decide) (by decide) (by decide) (by decide) (by decide)
    (by decide) (by decide) (by decide) (by decide)

/-- C6 witness: a rejected submission from `c6State` aborts cleanly. -/
theorem c6_engine_reject_aborts_witness :
    (moveSelectedPieceAndTriggerBotMove c6State "g5" "queen" none false false).state.world =
      c6State.world ∧
    (moveSelectedPieceAndTriggerBotMove c6State "g5" "queen" none false false).state.isPlayerTurn =
      c6State.isPlayerTurn ∧
    (moveSelectedPieceAndTriggerBotMove c6State "g5" "queen" none false false).state.selectedPiece =
      none ∧
    (moveSelectedPieceAndTriggerBotMove c6State "g5" "queen" none false false).state.validMoves =
      [] ∧
    Ev.searchGo ∉ (moveSelectedPieceAndTriggerBotMove c6State "g5" "queen" none false false).events :=
  c6_engine_reject_aborts c6State "knight_white_1" "g1" "g5" "queen" false false
    rfl (by decide)

/-- C7 amended witness: the prompt/submission trace of a concrete human move
from `c7State`. -/
theorem c7_prompt_iff_rank_edge_witness :
    ∃ promoChar,
      (moveSelectedPiece c7State "d1" "queen" none false false).events =
        (if amendedShouldPromote "pawn_white_1" "d1" then [Ev.promptPromotion] else []) ++
          [Ev.submitMove "d2" "d1" promoChar] :=
  c7_prompt_iff_rank_edge c7State "pawn_white_1" "d2" "d1" "queen" none false false
    rfl (by decide)

/-- C8 amended witness: the unrecognized letter `x` maps to a fresh
queen-named identity on `c8State`'s scene, and the submission event of the
`bestmove e2e1x` reply carries the raw character. -/
theorem c8_raw_submission_and_visual_queen_default_witness :
    (∃ ob, getPieceCharacterToPiece c8State.world.scene false "x" = some ob ∧
      ∃ k, ob.name = "queen_black_" ++ natRepr k) ∧
    (onBotMessage c8State "bestmove e2e1x" (some ⟨"e2", "e1", "e1=Q", "np", some "q"⟩)
        false false).events =
      [Ev.submitMove (getBestMoveDetails "bestmove e2e1x").1
        (getBestMoveDetails "bestmove e2e1x").2.1 (getBestMoveDetails "bestmove e2e1x").2.2] :=
  ⟨c8_raw_submission_and_visual_queen_default.1 c8State.world.scene "x"
      (by decide) (by decide) (by decide) (by decide) (by decide),
   c8_raw_submission_and_visual_queen_default.2 c8State "bestmove e2e1x"
      (some ⟨"e2", "e1", "e1=Q", "np", some "q"⟩) false false (by decide)⟩

/-- C9 witness: a mating human move, a mating opponent move, and draws on
both paths, at concrete states. -/
theorem c9_verdict_attribution_witness :
    ((moveSelectedPiece c9State "f7" "queen" (some c9Record) true false).state.verdictText =
      some "Checkmate! (Player wins)" ∧
     (moveSelectedPiece c9State "f7" "queen" (some c9Record) true false).state.verdictShown =
      true) ∧
    ((onBotMessage c9BotState "bestmove d8h4" (some c9BotRecord) true false).state.verdictText =
      some "Checkmate! (Computer wins)" ∧
     (onBotMessage c9BotState "bestmove d8h4" (some c9BotRecord) true false).state.verdictShown =
      true) ∧
    ((moveSelectedPiece c9State "f7" "queen" (some c9Record) false true).state.verdictText =
      some "Draw!" ∧
     (moveSelectedPiece c9State "f7" "queen" (some c9Record) false true).state.verdictShown =
      true) ∧
    ((onBotMessage c9BotState "bestmove d8h4" (some c9BotRecord) false true).state.verdictText =
      some "Draw!" ∧
     (onBotMessage c9BotState "bestmove d8h4" (some c9BotRecord) false true).state.verdictShown =
      true) :=
  ⟨c9_verdict_attribution.1 c9State "queen_white_1" "h5" "f7" "queen" c9Record rfl (by decide),
   c9_verdict_attribution.2.1 c9BotState "bestmove d8h4" c9BotRecord (by decide),
   c9_verdict_attribution.2.2.1 c9State "queen_white_1" "h5" "f7" "queen" c9Record rfl
     (by decide),
   c9_verdict_attribution.2.2.2 c9BotState "bestmove d8h4" c9BotRecord (by decide)⟩

/-- C10 witness: a form submission arriving with no wait pending changes
nothing. -/
theorem c10_single_shot_promotion_wait_witness :
    onPromoteStep ⟨false, []⟩ true (some "queen") = ⟨false, []⟩ :=
  c10_single_shot_promotion_wait.2 ⟨false, []⟩ true (some "queen") rfl

end Chess3d
